import Mathlib

/-!
Verification of the vault / document-resolution core of yuque-obsidian.

The TypeScript sources are shallowly embedded: each definition below mirrors
one function of the repository (src/services/fileSystem.ts,
src/services/vaultRegistry.ts, the MarkdownViewer component and App.tsx).
JavaScript strings are modelled as Lean String values, the browser
localStorage key-value store as a function from keys to Option String, and
the native file handles as opaque Nat tokens whose contents live in a
function from tokens to String.  Asynchronous I/O is modelled as pure state
passing; a thrown exception is an Except.error value.
-/

/-- FileType from src/types: a node is a file or a directory. -/
inductive FileType where
  | FILE
  | DIRECTORY
deriving DecidableEq

/-- FileSystemNode from src/types: name, kind, path, the optional native
handle (opaque token), the optional in-memory content cache, the optional
ordered children sequence, and the UI isOpen flag. -/
inductive FileSystemNode where
  | mk (name : String) (kind : FileType) (path : String)
       (handle : Option Nat) (content : Option String)
       (children : Option (List FileSystemNode)) (isOpen : Bool)

def FileSystemNode.name : FileSystemNode → String
  | .mk n _ _ _ _ _ _ => n

def FileSystemNode.kind : FileSystemNode → FileType
  | .mk _ k _ _ _ _ _ => k

def FileSystemNode.path : FileSystemNode → String
  | .mk _ _ p _ _ _ _ => p

def FileSystemNode.handle : FileSystemNode → Option Nat
  | .mk _ _ _ h _ _ _ => h

def FileSystemNode.content : FileSystemNode → Option String
  | .mk _ _ _ _ c _ _ => c

def FileSystemNode.children : FileSystemNode → Option (List FileSystemNode)
  | .mk _ _ _ _ _ cs _ => cs

def FileSystemNode.isOpen : FileSystemNode → Bool
  | .mk _ _ _ _ _ _ o => o

/-- Replace the content field (JS assignment node.content = c). -/
def FileSystemNode.withContent : FileSystemNode → Option String → FileSystemNode
  | .mk n k p h _ cs o, c => .mk n k p h c cs o

/-- Replace the path field (JS assignment node.path = p). -/
def FileSystemNode.withPath : FileSystemNode → String → FileSystemNode
  | .mk n k _ h c cs o, p => .mk n k p h c cs o

/-- Replace the children field. -/
def FileSystemNode.withChildren : FileSystemNode → Option (List FileSystemNode) → FileSystemNode
  | .mk n k p h c _ o, cs => .mk n k p h c cs o

/-- Replace name and path together (the two assignments done by rename). -/
def FileSystemNode.withNamePath : FileSystemNode → String → String → FileSystemNode
  | .mk _ k _ h c cs o, n, p => .mk n k p h c cs o

/-- Replace the handle field (JS assignment node.handle = h). -/
def FileSystemNode.withHandle : FileSystemNode → Option Nat → FileSystemNode
  | .mk n k p _ c cs o, h => .mk n k p h c cs o

/-- A throwaway node used to make list indexing total; theorems about an
indexed child always carry hypotheses that rule the dummy out. -/
def dummyNode : FileSystemNode := .mk "" FileType.FILE "" none none none false

-- JavaScript string primitives, modelled over the character list.

/-- JS s.startsWith(pre). -/
def jsStartsWith (s pre : String) : Bool := pre.data.isPrefixOf s.data

/-- JS s.endsWith(suf). -/
def jsEndsWith (s suf : String) : Bool := suf.data.isSuffixOf s.data

/-- JS s.includes('/'). -/
def containsSlash (s : String) : Bool := s.data.contains '/'

/-- Drop the first n characters of a string. -/
def strDrop (s : String) (n : Nat) : String := String.mk (s.data.drop n)

/-- One character of JS toLowerCase() followed by the /\\/g → '/'
replacement done by the resolver normalisation. -/
def normChar (c : Char) : Char :=
  let c2 := c.toLower
  if c2 = '\\' then '/' else c2

/-- The resolver normalisation (App.tsx findNodeByName):
str.toLowerCase().replace(/\\/g, '/'). -/
def jsNormalize (s : String) : String := String.mk (s.data.map normChar)

/-- JS s.toLowerCase() (per-character, as used on ASCII extensions). -/
def toLowerStr (s : String) : String := String.mk (s.data.map Char.toLower)

/-- Split s at the first occurrence of pat: some (before, after) with
s = before ++ pat ++ after, for the leftmost occurrence; none when pat
does not occur. -/
def splitAtFirst (pat : List Char) : List Char → Option (List Char × List Char)
  | [] => if pat.isPrefixOf [] then some ([], []) else none
  | c :: cs =>
    if pat.isPrefixOf (c :: cs) then some ([], (c :: cs).drop pat.length)
    else
      match splitAtFirst pat cs with
      | some r => some (c :: r.1, r.2)
      | none => none

/-- GetSubstitution of the JS replace algorithm, for a string pattern (no
capture groups): in the replacement text a dollar doubled yields a dollar,
dollar then the and-sign (code point 38) splices the matched text, dollar
then a backquote (code point 96) splices the text before the match, dollar
then an apostrophe (code point 39) splices the text after it, and any
other dollar — including dollar-digit, as a string pattern has no
captures — stays literal. -/
def getSubstitution (matched before after : List Char) : List Char → List Char
  | [] => []
  | [c] => [c]
  | c :: d :: rest2 =>
    if c = '$' then
      if d = '$' then '$' :: getSubstitution matched before after rest2
      else if d.toNat = 38 then
        matched ++ getSubstitution matched before after rest2
      else if d.toNat = 96 then
        before ++ getSubstitution matched before after rest2
      else if d.toNat = 39 then
        after ++ getSubstitution matched before after rest2
      else '$' :: getSubstitution matched before after (d :: rest2)
    else c :: getSubstitution matched before after (d :: rest2)

/-- JS String.prototype.replace with a string pattern: splice at the first
occurrence, applying GetSubstitution to the replacement string; when pat
never occurs the string is returned unchanged. -/
def replaceFirst (s pat repl : String) : String :=
  match splitAtFirst pat.data s.data with
  | some r =>
    String.mk (r.1 ++ getSubstitution pat.data r.1 r.2 repl.data ++ r.2)
  | none => s

/-- JS s.replace(/\.md$/, ''): strip one trailing ".md". -/
def stripMdEnd (s : String) : String :=
  if jsEndsWith s ".md" then String.mk (s.data.take (s.data.length - 3)) else s

-- Storage model.

/-- The browser localStorage: a total map from keys to optional strings. -/
def Store : Type := String → Option String

def lsGetItem (st : Store) (k : String) : Option String := st k

def lsSetItem (st : Store) (k v : String) : Store :=
  fun q => if q = k then some v else st q

def lsRemoveItem (st : Store) (k : String) : Store :=
  fun q => if q = k then none else st q

/-- The native disk: contents addressed by opaque handle token. -/
def Disk : Type := Nat → String

def diskWrite (d : Disk) (h : Nat) (text : String) : Disk :=
  fun q => if q = h then text else d q

/-- The static origin server: vault/(path) fetch results; none models a
non-ok HTTP response. -/
def Origin : Type := String → Option String

/-- MOCK_CONTENT_PREFIX from fileSystem.ts (renamed for Lean). -/
def mockContentMarker : String := "obsidian_mock_content_"

def mockKey (p : String) : String := mockContentMarker ++ p

-- ContentResolver (fileSystem.ts readFileContent / writeFileContent).

/-- readFileContent (fileSystem.ts:326-359).  Local mode reads the handle;
mock mode checks localStorage, then the in-memory cache, then fetches the
original from the static server, and treats a non-ok response as an empty
new file. -/
def readFileContent (disk : Disk) (store : Store) (origin : Origin)
    (node : FileSystemNode) : String :=
  match node.handle with
  | some h => disk h
  | none =>
    match lsGetItem store (mockKey node.path) with
    | some storedContent => storedContent
    | none =>
      match node.content with
      | some c => c
      | none =>
        match origin node.path with
        | some text => text
        | none => ""

/-- writeFileContent (fileSystem.ts:364-376).  Local mode writes through the
handle; mock mode persists to localStorage and updates the memory
reference. -/
def writeFileContent (disk : Disk) (store : Store)
    (node : FileSystemNode) (content : String) :
    Disk × Store × FileSystemNode :=
  match node.handle with
  | some h => (diskWrite disk h content, store, node)
  | none =>
    (disk, lsSetItem store (mockKey node.path) content,
     node.withContent (some content))

/-- Claim C1: for every node with no native handle the read resolves to the
first hit of: localStorage entry at the node's path key, the node's cached
content, the origin default for the path, the empty string.  Stated through
the spec-side precedence combinator Option.or / Option.getD. -/
theorem C1_readFileContent_virtual_precedence
    (disk : Disk) (store : Store) (origin : Origin) (node : FileSystemNode)
    (h : node.handle = none) :
    readFileContent disk store origin node =
      (((lsGetItem store (mockKey node.path)).or node.content).or
        (origin node.path)).getD "" := by
  rcases node with ⟨n, k, p, hd, c, cs, o⟩
  rcases hd with _ | h0
  · simp only [readFileContent, FileSystemNode.handle, FileSystemNode.path,
      FileSystemNode.content]
    rcases lsGetItem store (mockKey p) with _ | s1
    · rcases c with _ | c1
      · rcases origin p with _ | t <;> rfl
      · rfl
    · rfl
  · exact absurd h (by simp [FileSystemNode.handle])

/-- Witness for C1 at a concrete virtual node whose content comes from the
cached-content layer. -/
theorem C1_readFileContent_virtual_precedence_witness :
    readFileContent (fun _ => "") (fun _ => none) (fun _ => none)
      (.mk "a.md" FileType.FILE "a.md" none (some "cached") none false) =
      ((((fun _ => none : Store) (mockKey "a.md")).or (some "cached")).or
        ((fun _ => none : Origin) "a.md")).getD "" :=
  C1_readFileContent_virtual_precedence (fun _ => "") (fun _ => none)
    (fun _ => none)
    (.mk "a.md" FileType.FILE "a.md" none (some "cached") none false) rfl

/-- Claim C2: writing X to a FILE node and then reading it back yields X, in
both the native-handle and the handle-free variants. -/
theorem C2_write_read_round_trip
    (disk : Disk) (store : Store) (origin : Origin)
    (node : FileSystemNode) (x : String) (hk : node.kind = FileType.FILE) :
    (fun r => readFileContent r.1 r.2.1 origin r.2.2)
      (writeFileContent disk store node x) = x := by
  rcases node with ⟨n, k, p, hd, c, cs, o⟩
  rcases hd with _ | h0
  · simp [writeFileContent, readFileContent, FileSystemNode.handle,
      FileSystemNode.path, FileSystemNode.withContent, lsGetItem, lsSetItem]
  · simp [writeFileContent, readFileContent, FileSystemNode.handle,
      diskWrite]

/-- Witness for C2: concrete round trips under both variants, both applying
the round-trip theorem. -/
theorem C2_write_read_round_trip_witness :
    (fun r => readFileContent r.1 r.2.1 (fun _ => none) r.2.2)
      (writeFileContent (fun _ => "") (fun _ => none)
        (.mk "a.md" FileType.FILE "a.md" none none none false) "X") = "X" ∧
    (fun r => readFileContent r.1 r.2.1 (fun _ => none) r.2.2)
      (writeFileContent (fun _ => "") (fun _ => none)
        (.mk "b.md" FileType.FILE "b.md" (some 5) none none false) "Y") = "Y" :=
  ⟨C2_write_read_round_trip (fun _ => "") (fun _ => none) (fun _ => none)
      (.mk "a.md" FileType.FILE "a.md" none none none false) "X" rfl,
   C2_write_read_round_trip (fun _ => "") (fun _ => none) (fun _ => none)
      (.mk "b.md" FileType.FILE "b.md" (some 5) none none false) "Y" rfl⟩

-- Sibling ordering (fileSystem.ts sortChildren).

/-- Lexicographic less-or-equal on code points; the model of the ordering
induced by a.name.localeCompare(b.name).  The development only uses that it
is a total transitive comparison. -/
def strLeList : List Char → List Char → Bool
  | [], _ => true
  | _ :: _, [] => false
  | c :: cs, d :: ds =>
    if c.toNat < d.toNat then true
    else if d.toNat < c.toNat then false
    else strLeList cs ds

def strLe (a b : String) : Bool := strLeList a.data b.data

theorem strLeList_total : ∀ a b, (strLeList a b || strLeList b a) = true := by
  intro a
  induction a with
  | nil => intro b; simp [strLeList]
  | cons c cs ih =>
    intro b
    cases b with
    | nil => simp [strLeList]
    | cons d ds =>
      simp only [strLeList]
      rcases Nat.lt_trichotomy c.toNat d.toNat with h | h | h
      · simp [h]
      · simp [h, Nat.lt_irrefl, ih ds]
      · simp [h, Nat.lt_asymm h]

theorem strLeList_trans :
    ∀ a b c, strLeList a b = true → strLeList b c = true →
      strLeList a c = true := by
  intro a
  induction a with
  | nil => intro b c _ _; simp [strLeList]
  | cons x xs ih =>
    intro b c hab hbc
    cases b with
    | nil => simp [strLeList] at hab
    | cons y ys =>
      cases c with
      | nil => simp [strLeList] at hbc
      | cons z zs =>
        simp only [strLeList] at hab hbc ⊢
        rcases Nat.lt_trichotomy x.toNat y.toNat with h1 | h1 | h1
        · rcases Nat.lt_trichotomy y.toNat z.toNat with h2 | h2 | h2
          · simp [Nat.lt_trans h1 h2]
          · have hz : x.toNat < z.toNat := h2 ▸ h1
            simp [hz]
          · simp [h2, Nat.lt_asymm h2] at hbc
        · simp [h1, Nat.lt_irrefl] at hab
          rcases Nat.lt_trichotomy y.toNat z.toNat with h2 | h2 | h2
          · have hz : x.toNat < z.toNat := h1 ▸ h2
            simp [hz]
          · simp [h2, Nat.lt_irrefl] at hbc
            have hz : x.toNat = z.toNat := h1.trans h2
            simp [hz, Nat.lt_irrefl]
            exact ih ys zs hab hbc
          · simp [h2, Nat.lt_asymm h2] at hbc
        · simp [h1, Nat.lt_asymm h1] at hab

/-- The comparator of fileSystem.ts sortChildren as a boolean less-or-equal:
equal kinds compare names via localeCompare, otherwise directories come
first. -/
def nodeLe (a b : FileSystemNode) : Bool :=
  if a.kind = b.kind then strLe a.name b.name
  else decide (a.kind = FileType.DIRECTORY)

/-- nodeLe as a relation, for the sorting lemmas. -/
def nodeLeR : FileSystemNode → FileSystemNode → Prop :=
  fun a b => nodeLe a b = true

instance : DecidableRel nodeLeR :=
  fun a b => instDecidableEqBool (nodeLe a b) true

theorem nodeLe_total (a b : FileSystemNode) : nodeLeR a b ∨ nodeLeR b a := by
  unfold nodeLeR nodeLe
  by_cases hk : a.kind = b.kind
  · simp [hk]
    have := strLeList_total a.name.data b.name.data
    rcases Bool.or_eq_true_iff.1 this with h | h
    · exact Or.inl h
    · exact Or.inr h
  · rcases ha : a.kind <;> rcases hb : b.kind <;> simp_all

theorem nodeLe_trans (a b c : FileSystemNode)
    (hab : nodeLeR a b) (hbc : nodeLeR b c) : nodeLeR a c := by
  unfold nodeLeR nodeLe at hab hbc ⊢
  rcases ha : a.kind <;> rcases hb : b.kind <;> rcases hc : c.kind <;>
    simp_all
  · exact strLeList_trans _ _ _ hab hbc
  · exact strLeList_trans _ _ _ hab hbc

instance : IsTotal FileSystemNode nodeLeR := ⟨nodeLe_total⟩

instance : IsTrans FileSystemNode nodeLeR := ⟨nodeLe_trans⟩

/-- sortChildren (fileSystem.ts:314-321): stable sort of a children
sequence under the directories-first, then-by-name comparator. -/
def sortChildren (children : List FileSystemNode) : List FileSystemNode :=
  children.insertionSort nodeLeR

-- PathMutator (fileSystem.ts create / rename).

/-- createNewFile (fileSystem.ts:381-415).  Throws on an exact sibling name
collision before anything else; otherwise local mode allocates a native
file (the fresh opaque token freshHandle, created empty on disk), mock mode
initialises the localStorage entry; either way the node is appended to the
parent's children which are then re-sorted. -/
def createNewFile (disk : Disk) (store : Store) (freshHandle : Nat)
    (parentDir : FileSystemNode) (fileName : String) :
    Except String (Disk × Store × FileSystemNode × FileSystemNode) :=
  if (parentDir.children.getD []).any (fun c => c.name = fileName) then
    Except.error "文件已存在"
  else
    let path := if parentDir.path = "" then fileName
                else parentDir.path ++ "/" ++ fileName
    match parentDir.handle with
    | some _ =>
      let newNode : FileSystemNode :=
        .mk fileName FileType.FILE path (some freshHandle) none none false
      Except.ok (diskWrite disk freshHandle "", store,
        parentDir.withChildren
          (some (sortChildren ((parentDir.children.getD []) ++ [newNode]))),
        newNode)
    | none =>
      let newNode : FileSystemNode :=
        .mk fileName FileType.FILE path none (some "") none false
      Except.ok (disk, lsSetItem store (mockKey path) "",
        parentDir.withChildren
          (some (sortChildren ((parentDir.children.getD []) ++ [newNode]))),
        newNode)

/-- createNewFolder (fileSystem.ts:420-454): same shape as createNewFile but
creates a DIRECTORY node with empty children and touches no content
store. -/
def createNewFolder (disk : Disk) (store : Store) (freshHandle : Nat)
    (parentDir : FileSystemNode) (folderName : String) :
    Except String (Disk × Store × FileSystemNode × FileSystemNode) :=
  if (parentDir.children.getD []).any (fun c => c.name = folderName) then
    Except.error "文件夹已存在"
  else
    let path := if parentDir.path = "" then folderName
                else parentDir.path ++ "/" ++ folderName
    match parentDir.handle with
    | some _ =>
      let newNode : FileSystemNode :=
        .mk folderName FileType.DIRECTORY path (some freshHandle) none
          (some []) true
      Except.ok (disk, store,
        parentDir.withChildren
          (some (sortChildren ((parentDir.children.getD []) ++ [newNode]))),
        newNode)
    | none =>
      let newNode : FileSystemNode :=
        .mk folderName FileType.DIRECTORY path none none (some []) true
      Except.ok (disk, store,
        parentDir.withChildren
          (some (sortChildren ((parentDir.children.getD []) ++ [newNode]))),
        newNode)

/-- The recursive loop of updateChildrenPaths (fileSystem.ts:536-555): each
child whose path starts with the renamed directory's old path gets that
occurrence replaced by the new path, and directory children are processed
recursively with the same top-level old/new paths.  The body that should
migrate mock-mode localStorage keys is commented out in the source (it only
computes an unused key), so the store is not an input here. -/
def updList : List FileSystemNode → String → String → List FileSystemNode
  | [], _, _ => []
  | .mk n k p h c cs o :: rest, po, pn =>
    let p2 := if jsStartsWith p po then replaceFirst p po pn else p
    let cs2 :=
      if k = FileType.DIRECTORY then
        match cs with
        | none => none
        | some l => some (updList l po pn)
      else cs
    .mk n k p2 h c cs2 o :: updList rest po pn

/-- updateChildrenPaths entry point: nothing to do when the node has no
children sequence. -/
def updateChildrenPaths (node : FileSystemNode)
    (parentOldPath parentNewPath : String) : FileSystemNode :=
  match node.children with
  | none => node
  | some cs => node.withChildren (some (updList cs parentOldPath parentNewPath))

/-- renameFileSystemNode (fileSystem.ts:482-534), acting on child i of the
parent.  The sibling collision check comes first; then the backend step:
native mode uses the move API when available (canMove), falls back to
copy-create-delete through a fresh handle for files, and throws for
directories; mock mode migrates the localStorage entry of the renamed node
itself when it is a FILE.  On success the node's name and path are updated,
directory descendants get their paths rewritten, and the parent's children
are re-sorted. -/
def renameFileSystemNode (disk : Disk) (store : Store)
    (canMove : Bool) (freshHandle : Nat)
    (parent : FileSystemNode) (i : Nat) (newName : String) :
    Except String (Disk × Store × FileSystemNode × FileSystemNode) :=
  if (parent.children.getD []).any (fun c => c.name = newName) then
    Except.error "该名称已存在"
  else
    let node := (parent.children.getD []).getD i dummyNode
    let oldPath := node.path
    let newPath := if parent.path = "" then newName
                   else parent.path ++ "/" ++ newName
    let step : Except String (Disk × Store × FileSystemNode) :=
      match node.handle with
      | some h =>
        if canMove then Except.ok (disk, store, node)
        else if node.kind = FileType.FILE then
          Except.ok (diskWrite disk freshHandle (disk h), store,
            node.withHandle (some freshHandle))
        else
          Except.error "您的浏览器暂不支持重命名文件夹 (缺少 move API)，请尝试使用 Chrome 111+。"
      | none =>
        let store2 :=
          if node.kind = FileType.FILE then
            match lsGetItem store (mockKey oldPath) with
            | some content =>
              lsRemoveItem (lsSetItem store (mockKey newPath) content)
                (mockKey oldPath)
            | none => store
          else store
        Except.ok (disk, store2, node)
    match step with
    | Except.error e => Except.error e
    | Except.ok (disk2, store2, node0) =>
      let node1 := node0.withNamePath newName newPath
      let node2 :=
        if node1.kind = FileType.DIRECTORY then
          match node1.children with
          | some _ => updateChildrenPaths node1 oldPath newPath
          | none => node1
        else node1
      let parent2 :=
        match parent.children with
        | some l => parent.withChildren (some (sortChildren (l.set i node2)))
        | none => parent
      Except.ok (disk2, store2, parent2, node2)

/-- Claim C3: createNewFile / createNewFolder fail with the name-collision
error exactly when an existing child of the parent has the requested name
under exact case-sensitive comparison, and renameFileSystemNode fails with
the name-collision error exactly when a sibling already has the new name.
In each definition the collision test is the first step, before any disk,
store or tree value is produced, so the error branch returns the input
state untouched (fail closed). -/
theorem C3_create_rename_name_collision :
    (∀ (disk : Disk) (store : Store) (fh : Nat) (parentDir : FileSystemNode)
        (fileName : String),
        createNewFile disk store fh parentDir fileName =
            Except.error "文件已存在" ↔
          ∃ c ∈ parentDir.children.getD [], c.name = fileName) ∧
    (∀ (disk : Disk) (store : Store) (fh : Nat) (parentDir : FileSystemNode)
        (folderName : String),
        createNewFolder disk store fh parentDir folderName =
            Except.error "文件夹已存在" ↔
          ∃ c ∈ parentDir.children.getD [], c.name = folderName) ∧
    (∀ (disk : Disk) (store : Store) (canMove : Bool) (fh i : Nat)
        (parent : FileSystemNode) (newName : String),
        renameFileSystemNode disk store canMove fh parent i newName =
            Except.error "该名称已存在" ↔
          ∃ c ∈ parent.children.getD [], c.name = newName) := by
  refine ⟨?_, ?_, ?_⟩
  · intro disk store fh parentDir fileName
    cases hany : (parentDir.children.getD []).any (fun c => c.name = fileName) with
    | true =>
      have hex := List.any_eq_true.1 hany
      simp only [decide_eq_true_eq] at hex
      simp [createNewFile, hany, hex]
    | false =>
      have hnex : ¬ ∃ c ∈ parentDir.children.getD [], c.name = fileName := by
        have := List.any_eq_false.1 hany
        simpa using this
      rcases hh : parentDir.handle with _ | h0 <;>
        simp [createNewFile, hany, hh, hnex]
  · intro disk store fh parentDir folderName
    cases hany : (parentDir.children.getD []).any (fun c => c.name = folderName) with
    | true =>
      have hex := List.any_eq_true.1 hany
      simp only [decide_eq_true_eq] at hex
      simp [createNewFolder, hany, hex]
    | false =>
      have hnex : ¬ ∃ c ∈ parentDir.children.getD [], c.name = folderName := by
        have := List.any_eq_false.1 hany
        simpa using this
      rcases hh : parentDir.handle with _ | h0 <;>
        simp [createNewFolder, hany, hh, hnex]
  · intro disk store canMove fh i parent newName
    cases hany : (parent.children.getD []).any (fun c => c.name = newName) with
    | true =>
      have hex := List.any_eq_true.1 hany
      simp only [decide_eq_true_eq] at hex
      simp [renameFileSystemNode, hany, hex]
    | false =>
      have hnex : ¬ ∃ c ∈ parent.children.getD [], c.name = newName := by
        have := List.any_eq_false.1 hany
        simpa using this
      rcases hh : ((parent.children.getD [])[i]?.getD dummyNode).handle with _ | h0
      · simp [renameFileSystemNode, hany, hh, hnex]
      · cases hcm : canMove with
        | true => simp [renameFileSystemNode, hany, hh, hcm, hnex]
        | false =>
          cases hk : ((parent.children.getD [])[i]?.getD dummyNode).kind with
          | FILE => simp [renameFileSystemNode, hany, hh, hcm, hk, hnex]
          | DIRECTORY =>
            simp [renameFileSystemNode, hany, hh, hcm, hk, hnex]

theorem FileSystemNode.children_withChildren (n : FileSystemNode)
    (cs : Option (List FileSystemNode)) : (n.withChildren cs).children = cs := by
  rcases n with ⟨_, _, _, _, _, _, _⟩
  rfl

/-- The sibling ordering invariant as the spec states it: every DIRECTORY
before every FILE, and ascending names within equal kind. -/
def childOrderOk (l : List FileSystemNode) : Prop :=
  l.Pairwise (fun a b =>
    (b.kind = FileType.DIRECTORY → a.kind = FileType.DIRECTORY) ∧
    (a.kind = b.kind → strLe a.name b.name = true))

theorem sortChildren_ordered (l : List FileSystemNode) :
    childOrderOk (sortChildren l) := by
  have hs : List.Pairwise nodeLeR (sortChildren l) :=
    List.sorted_insertionSort nodeLeR l
  refine List.Pairwise.imp ?_ hs
  intro a b h
  unfold nodeLeR nodeLe at h
  by_cases hk : a.kind = b.kind
  · rw [if_pos hk] at h
    exact ⟨fun hb => hk.trans hb, fun _ => h⟩
  · rw [if_neg hk] at h
    exact ⟨fun _ => of_decide_eq_true h, fun he => absurd he hk⟩

/-- Claim C4: after every successful create or rename, the touched children
sequence lists every DIRECTORY before every FILE and, within each kind, the
names ascend in the locale order. -/
theorem C4_children_sorted_after_create_rename :
    (∀ (disk : Disk) (store : Store) (fh : Nat) (parentDir : FileSystemNode)
        (fileName : String) r,
        createNewFile disk store fh parentDir fileName = Except.ok r →
        ∀ l, r.2.2.1.children = some l → childOrderOk l) ∧
    (∀ (disk : Disk) (store : Store) (fh : Nat) (parentDir : FileSystemNode)
        (folderName : String) r,
        createNewFolder disk store fh parentDir folderName = Except.ok r →
        ∀ l, r.2.2.1.children = some l → childOrderOk l) ∧
    (∀ (disk : Disk) (store : Store) (canMove : Bool) (fh i : Nat)
        (parent : FileSystemNode) (newName : String) r,
        renameFileSystemNode disk store canMove fh parent i newName =
            Except.ok r →
        ∀ l, r.2.2.1.children = some l → childOrderOk l) := by
  refine ⟨?_, ?_, ?_⟩
  · intro disk store fh parentDir fileName r h l hl
    unfold createNewFile at h
    split at h
    · exact absurd h (by simp)
    · dsimp only at h
      split at h <;>
      · injection h with h2
        subst h2
        dsimp only at hl
        rw [FileSystemNode.children_withChildren] at hl
        injection hl with hl2
        subst hl2
        exact sortChildren_ordered _
  · intro disk store fh parentDir folderName r h l hl
    unfold createNewFolder at h
    split at h
    · exact absurd h (by simp)
    · dsimp only at h
      split at h <;>
      · injection h with h2
        subst h2
        dsimp only at hl
        rw [FileSystemNode.children_withChildren] at hl
        injection hl with hl2
        subst hl2
        exact sortChildren_ordered _
  · intro disk store canMove fh i parent newName r h l hl
    unfold renameFileSystemNode at h
    split at h
    · exact absurd h (by simp)
    · dsimp only at h
      split at h
      · exact absurd h (by simp)
      · injection h with h2
        subst h2
        dsimp only at hl
        split at hl
        · rw [FileSystemNode.children_withChildren] at hl
          injection hl with hl2
          subst hl2
          exact sortChildren_ordered _
        · rename_i hnone
          rw [hnone] at hl
          exact absurd hl (by simp)

/-- Witness for C4: creating b.md in an empty mock directory yields the
singleton sorted children sequence. -/
theorem C4_children_sorted_after_create_rename_witness :
    childOrderOk [FileSystemNode.mk "b.md" FileType.FILE "b.md" none
      (some "") none false] :=
  C4_children_sorted_after_create_rename.1 (fun _ => "") (fun _ => none) 0
    (.mk "vault" FileType.DIRECTORY "" none none (some []) false) "b.md"
    ((fun _ => ""), lsSetItem (fun _ => none) (mockKey "b.md") "",
      FileSystemNode.mk "vault" FileType.DIRECTORY "" none none
        (some [FileSystemNode.mk "b.md" FileType.FILE "b.md" none
          (some "") none false]) false,
      FileSystemNode.mk "b.md" FileType.FILE "b.md" none (some "") none false)
    rfl
    [FileSystemNode.mk "b.md" FileType.FILE "b.md" none (some "") none false]
    rfl

-- Descendant bookkeeping for the rename path-propagation claim.

mutual
/-- All strict-descendant path strings of a node, in tree order. -/
def descPathsNode : FileSystemNode → List String
  | .mk _ _ _ _ _ cs _ =>
    match cs with
    | none => []
    | some l => descPathsList l

def descPathsList : List FileSystemNode → List String
  | [] => []
  | x :: rest => x.path :: (descPathsNode x ++ descPathsList rest)
end

mutual
/-- A node with every path field erased: the tree structure, names, kinds,
handles and contents, but no path strings. -/
def shapeNode : FileSystemNode → FileSystemNode
  | .mk n k _ h c cs o => .mk n k "" h c (shapeChildren cs) o

def shapeChildren : Option (List FileSystemNode) → Option (List FileSystemNode)
  | none => none
  | some l => some (shapeList l)

def shapeList : List FileSystemNode → List FileSystemNode
  | [] => []
  | x :: xs => shapeNode x :: shapeList xs
end

mutual
/-- The children-only-for-directories invariant of the data model: any node
carrying a children sequence is a DIRECTORY, recursively. -/
def wfKindsNode : FileSystemNode → Bool
  | .mk _ k _ _ _ cs _ =>
    match cs with
    | none => true
    | some l => decide (k = FileType.DIRECTORY) && wfKindsList l

def wfKindsList : List FileSystemNode → Bool
  | [] => true
  | x :: xs => wfKindsNode x && wfKindsList xs
end

theorem FileSystemNode.name_withNamePath (x : FileSystemNode) (n p : String) :
    (x.withNamePath n p).name = n := by
  rcases x with ⟨_, _, _, _, _, _, _⟩; rfl

theorem FileSystemNode.path_withNamePath (x : FileSystemNode) (n p : String) :
    (x.withNamePath n p).path = p := by
  rcases x with ⟨_, _, _, _, _, _, _⟩; rfl

theorem FileSystemNode.kind_withNamePath (x : FileSystemNode) (n p : String) :
    (x.withNamePath n p).kind = x.kind := by
  rcases x with ⟨_, _, _, _, _, _, _⟩; rfl

theorem FileSystemNode.children_withNamePath (x : FileSystemNode) (n p : String) :
    (x.withNamePath n p).children = x.children := by
  rcases x with ⟨_, _, _, _, _, _, _⟩; rfl

theorem FileSystemNode.name_withChildren (x : FileSystemNode)
    (cs : Option (List FileSystemNode)) : (x.withChildren cs).name = x.name := by
  rcases x with ⟨_, _, _, _, _, _, _⟩; rfl

theorem FileSystemNode.path_withChildren (x : FileSystemNode)
    (cs : Option (List FileSystemNode)) : (x.withChildren cs).path = x.path := by
  rcases x with ⟨_, _, _, _, _, _, _⟩; rfl

theorem splitAtFirst_of_isPrefix (pat s : List Char)
    (h : pat.isPrefixOf s = true) :
    splitAtFirst pat s = some ([], s.drop pat.length) := by
  cases s with
  | nil =>
    rw [splitAtFirst, if_pos h]
    simp
  | cons c cs =>
    rw [splitAtFirst, if_pos h]

theorem getSubstitution_no_dollar (matched before after : List Char) :
    ∀ l : List Char, l.contains '$' = false →
      getSubstitution matched before after l = l
  | [], _ => rfl
  | [c], _ => rfl
  | c :: d :: rest, hl => by
    rw [List.contains_cons, Bool.or_eq_false_iff] at hl
    have hc : ¬(c = '$') := by
      intro hcc
      rw [hcc] at hl
      simp at hl
    rw [getSubstitution, if_neg hc,
      getSubstitution_no_dollar matched before after (d :: rest) hl.2]

/-- When po is a prefix of s and the replacement carries no dollar, the JS
first-occurrence replace rewrites exactly that prefix. -/
theorem replaceFirst_eq_of_startsWith (s po pn : String)
    (h : jsStartsWith s po = true)
    (hd : pn.data.contains '$' = false) :
    replaceFirst s po pn = pn ++ strDrop s po.length := by
  unfold replaceFirst
  rw [splitAtFirst_of_isPrefix po.data s.data h]
  dsimp only
  rw [getSubstitution_no_dollar po.data [] (s.data.drop po.data.length)
    pn.data hd]
  rfl

/-- Path rewriting of updList: when every descendant path starts with the
old path, children only occur under directories, and the new path carries
no dollar (so GetSubstitution is the identity on it), the rewritten tree
has exactly the prefix-replaced descendant paths and an unchanged shape. -/
theorem updList_spec : ∀ (cs : List FileSystemNode) (po pn : String),
    pn.data.contains '$' = false →
    wfKindsList cs = true →
    (∀ q ∈ descPathsList cs, jsStartsWith q po = true) →
    descPathsList (updList cs po pn) =
      (descPathsList cs).map (fun q => pn ++ strDrop q po.length) ∧
    shapeList (updList cs po pn) = shapeList cs
  | [], po, pn, _, _, _ => by
    simp [updList, descPathsList, shapeList]
  | .mk n k p h c ocs o :: rest, po, pn, hd, hwf, hpre => by
    rw [wfKindsList, Bool.and_eq_true] at hwf
    obtain ⟨hwn, hwr⟩ := hwf
    rw [descPathsList] at hpre
    simp only [FileSystemNode.path] at hpre
    have hp : jsStartsWith p po = true := hpre p (List.mem_cons_self _ _)
    have hpn : ∀ q ∈ descPathsNode (.mk n k p h c ocs o),
        jsStartsWith q po = true :=
      fun q hq => hpre q (List.mem_cons_of_mem _ (List.mem_append_left _ hq))
    have hpr : ∀ q ∈ descPathsList rest, jsStartsWith q po = true :=
      fun q hq => hpre q (List.mem_cons_of_mem _ (List.mem_append_right _ hq))
    have hrest := updList_spec rest po pn hd hwr hpr
    cases ocs with
    | none =>
      cases k with
      | FILE =>
        simp [updList, descPathsList, descPathsNode, shapeList, shapeNode,
          shapeChildren, FileSystemNode.path, hp,
          replaceFirst_eq_of_startsWith p po pn hp hd, hrest.1, hrest.2]
      | DIRECTORY =>
        simp [updList, descPathsList, descPathsNode, shapeList, shapeNode,
          shapeChildren, FileSystemNode.path, hp,
          replaceFirst_eq_of_startsWith p po pn hp hd, hrest.1, hrest.2]
    | some l =>
      rw [wfKindsNode, Bool.and_eq_true, decide_eq_true_eq] at hwn
      obtain ⟨hk, hwl⟩ := hwn
      subst hk
      have hpl : ∀ q ∈ descPathsList l, jsStartsWith q po = true := by
        intro q hq
        apply hpn
        rw [descPathsNode]
        exact hq
      have hl := updList_spec l po pn hd hwl hpl
      simp [updList, descPathsList, descPathsNode, shapeList, shapeNode,
        shapeChildren, FileSystemNode.path, hp,
        replaceFirst_eq_of_startsWith p po pn hp hd,
        hrest.1, hrest.2, hl.1, hl.2]

/-- Claim C5 amended: a successful rename of a DIRECTORY child renames the
node, recomputes its path from the parent's path, replaces the old
directory-path prefix of every descendant path with the new one, and
leaves the child structure (shape) unchanged — provided the computed new
path contains no dollar character.  (When it does, the JS replace used on
each descendant path performs GetSubstitution on the new path, splicing
the old path or its surroundings instead: see the counterexample.) -/
theorem C5_rename_directory_path_propagation
    (disk : Disk) (store : Store) (canMove : Bool) (fh i : Nat)
    (parent : FileSystemNode) (newName : String) (node : FileSystemNode)
    (r : Disk × Store × FileSystemNode × FileSystemNode)
    (hnode : (parent.children.getD []).getD i dummyNode = node)
    (hkind : node.kind = FileType.DIRECTORY)
    (hwf : wfKindsNode node = true)
    (hpre : ∀ q ∈ descPathsNode node, jsStartsWith q node.path = true)
    (hdollar : (if parent.path = "" then newName
      else parent.path ++ "/" ++ newName).data.contains '$' = false)
    (hok : renameFileSystemNode disk store canMove fh parent i newName =
      Except.ok r) :
    r.2.2.2.name = newName ∧
    r.2.2.2.path =
      (if parent.path = "" then newName else parent.path ++ "/" ++ newName) ∧
    descPathsNode r.2.2.2 =
      (descPathsNode node).map (fun q =>
        (if parent.path = "" then newName
         else parent.path ++ "/" ++ newName) ++ strDrop q node.path.length) ∧
    shapeChildren r.2.2.2.children = shapeChildren node.children := by
  rcases node with ⟨nn, nk, np, nh, nc, ncs, no⟩
  rcases parent with ⟨pn0, pk0, pp0, ph0, pc0, pcs0, po0⟩
  simp only [FileSystemNode.kind] at hkind
  subst hkind
  simp only [FileSystemNode.path] at hpre hdollar ⊢
  unfold renameFileSystemNode at hok
  rw [hnode] at hok
  split at hok
  · exact absurd hok (by simp)
  · dsimp only at hok
    simp only [FileSystemNode.handle, FileSystemNode.kind, FileSystemNode.path,
      FileSystemNode.children, FileSystemNode.withNamePath] at hok
    rcases nh with _ | h0
    · simp at hok
      subst hok
      cases ncs with
      | none =>
        simp [FileSystemNode.name, FileSystemNode.path, FileSystemNode.children,
          updateChildrenPaths, descPathsNode, shapeChildren]
      | some l =>
        rw [wfKindsNode, Bool.and_eq_true, decide_eq_true_eq] at hwf
        rw [descPathsNode] at hpre
        have hl := updList_spec l np
          (if pp0 = "" then newName else pp0 ++ "/" ++ newName) hdollar
          hwf.2 hpre
        simp [FileSystemNode.name, FileSystemNode.path, FileSystemNode.children,
          updateChildrenPaths, FileSystemNode.withChildren, descPathsNode,
          shapeChildren, hl.1, hl.2]
    · cases hcm : canMove with
      | false =>
        rw [hcm] at hok
        simp at hok
      | true =>
        rw [hcm] at hok
        simp at hok
        subst hok
        cases ncs with
        | none =>
          simp [FileSystemNode.name, FileSystemNode.path,
            FileSystemNode.children, updateChildrenPaths, descPathsNode,
            shapeChildren]
        | some l =>
          rw [wfKindsNode, Bool.and_eq_true, decide_eq_true_eq] at hwf
          rw [descPathsNode] at hpre
          have hl := updList_spec l np
            (if pp0 = "" then newName else pp0 ++ "/" ++ newName) hdollar
            hwf.2 hpre
          simp [FileSystemNode.name, FileSystemNode.path,
            FileSystemNode.children, updateChildrenPaths,
            FileSystemNode.withChildren, descPathsNode, shapeChildren,
            hl.1, hl.2]

def c5Specs : FileSystemNode :=
  .mk "Specs.md" FileType.FILE "Projects/Alpha/Specs.md" none none none false

def c5Alpha : FileSystemNode :=
  .mk "Alpha" FileType.DIRECTORY "Projects/Alpha" none none (some [c5Specs])
    false

def c5Projects : FileSystemNode :=
  .mk "Projects" FileType.DIRECTORY "Projects" none none (some [c5Alpha]) false

def c5Vault : FileSystemNode :=
  .mk "vault" FileType.DIRECTORY "" none none (some [c5Projects]) false

/-- The state produced by renaming the Projects directory of c5Vault to
Work in mock mode. -/
def c5Renamed : Disk × Store × FileSystemNode × FileSystemNode :=
  ((fun _ => ""), (fun _ => none),
   .mk "vault" FileType.DIRECTORY "" none none
     (some [.mk "Work" FileType.DIRECTORY "Work" none none
       (some [.mk "Alpha" FileType.DIRECTORY "Work/Alpha" none none
         (some [.mk "Specs.md" FileType.FILE "Work/Alpha/Specs.md" none none
           none false]) false]) false]) false,
   .mk "Work" FileType.DIRECTORY "Work" none none
     (some [.mk "Alpha" FileType.DIRECTORY "Work/Alpha" none none
       (some [.mk "Specs.md" FileType.FILE "Work/Alpha/Specs.md" none none
         none false]) false]) false)

/-- Witness for C5 on the spec's own example: renaming Projects to Work
yields directory path Work and descendant paths Work/Alpha and
Work/Alpha/Specs.md. -/
theorem C5_rename_directory_path_propagation_witness :
    c5Renamed.2.2.2.name = "Work" ∧
    c5Renamed.2.2.2.path = "Work" ∧
    descPathsNode c5Renamed.2.2.2 =
      (descPathsNode c5Projects).map
        (fun q => "Work" ++ strDrop q c5Projects.path.length) ∧
    shapeChildren c5Renamed.2.2.2.children =
      shapeChildren c5Projects.children := by
  have h := C5_rename_directory_path_propagation (fun _ => "") (fun _ => none)
    false 0 0 c5Vault "Work" c5Projects c5Renamed rfl rfl (by decide)
    (by decide) (by decide)
    (by
      unfold renameFileSystemNode
      simp [c5Vault, c5Projects, c5Alpha, c5Specs, c5Renamed,
        FileSystemNode.children, FileSystemNode.name, FileSystemNode.handle,
        FileSystemNode.kind, FileSystemNode.path, FileSystemNode.withNamePath,
        FileSystemNode.withChildren, updateChildrenPaths, updList,
        jsStartsWith, replaceFirst, splitAtFirst, getSubstitution,
        sortChildren, dummyNode, strDrop])
  simpa [c5Vault, FileSystemNode.path] using h

def c5xProjects : FileSystemNode :=
  .mk "Projects" FileType.DIRECTORY "Projects" none none
    (some [.mk "A.md" FileType.FILE "Projects/A.md" none none none false])
    false

def c5xVault : FileSystemNode :=
  .mk "vault" FileType.DIRECTORY "" none none (some [c5xProjects]) false

/-- The state actually produced by renaming the Projects directory of
c5xVault to the dollar-carrying name in mock mode: the directory path is
set literally, but the descendant path is spliced by GetSubstitution. -/
def c5xRenamed : Disk × Store × FileSystemNode × FileSystemNode :=
  ((fun _ => ""), (fun _ => none),
   .mk "vault" FileType.DIRECTORY "" none none
     (some [.mk "Wo$&rk" FileType.DIRECTORY "Wo$&rk" none none
       (some [.mk "A.md" FileType.FILE "WoProjectsrk/A.md" none none none
         false]) false]) false,
   .mk "Wo$&rk" FileType.DIRECTORY "Wo$&rk" none none
     (some [.mk "A.md" FileType.FILE "WoProjectsrk/A.md" none none none
       false]) false)

/-- Counterexample to claim C5 as universally stated: renaming Projects to
the legal name Wo$&rk sets the directory's own path literally to Wo$&rk,
but the JS replace applied to the descendant path substitutes the matched
old path for the dollar-and-sign pair, producing WoProjectsrk/A.md where
the claimed prefix replacement demands Wo$&rk/A.md. -/
theorem C5_rename_dollar_substitution_counterexample :
    renameFileSystemNode (fun _ => "") (fun _ => none) false 0 c5xVault 0
        "Wo$&rk" = Except.ok c5xRenamed ∧
    c5xRenamed.2.2.2.path = "Wo$&rk" ∧
    descPathsNode c5xRenamed.2.2.2 = ["WoProjectsrk/A.md"] ∧
    (descPathsNode c5xProjects).map
        (fun q => "Wo$&rk" ++ strDrop q c5xProjects.path.length) =
      ["Wo$&rk/A.md"] := by
  refine ⟨?_, rfl, ?_, ?_⟩
  · unfold renameFileSystemNode
    simp [c5xVault, c5xProjects, c5xRenamed, FileSystemNode.children,
      FileSystemNode.name, FileSystemNode.handle, FileSystemNode.kind,
      FileSystemNode.path, FileSystemNode.withNamePath,
      FileSystemNode.withChildren, updateChildrenPaths, updList,
      jsStartsWith, replaceFirst, splitAtFirst, getSubstitution,
      sortChildren, dummyNode, strDrop]
  · decide
  · decide

def c6Store : Store :=
  lsSetItem (fun _ => none) (mockKey "Projects/Alpha/Specs.md") "spec text"

def c6Vault : FileSystemNode :=
  .mk "vault" FileType.DIRECTORY "" none none
    (some [.mk "Projects" FileType.DIRECTORY "Projects" none none
      (some [.mk "Alpha" FileType.DIRECTORY "Projects/Alpha" none none
        (some [.mk "Specs.md" FileType.FILE "Projects/Alpha/Specs.md" none
          none none false]) false]) false]) false

/-- Claim C6 names a migration the code does not perform: after the
mock-mode rename of directory Projects to Work, the persisted entry of the
descendant file is still held under the old path key
Projects/Alpha/Specs.md and the new key Work/Alpha/Specs.md holds nothing —
the store-migration step of updateChildrenPaths is dead code (an unused
key computation under a comment). -/
theorem C6_rename_virtual_store_not_migrated :
    (renameFileSystemNode (fun _ => "") c6Store false 0 c6Vault 0 "Work").map
        (fun r => (r.2.1 (mockKey "Projects/Alpha/Specs.md"),
                   r.2.1 (mockKey "Work/Alpha/Specs.md"))) =
      Except.ok (some "spec text", none) := by
  unfold renameFileSystemNode
  simp [c6Vault, c6Store, FileSystemNode.children, FileSystemNode.name,
    FileSystemNode.handle, FileSystemNode.kind, FileSystemNode.path,
    FileSystemNode.withNamePath, FileSystemNode.withChildren,
    updateChildrenPaths, updList, jsStartsWith, replaceFirst,
    splitAtFirst, getSubstitution, sortChildren, dummyNode, strDrop,
    lsSetItem, lsGetItem, mockKey, mockContentMarker]
  simp [Except.map, lsSetItem]

-- MarkupProcessor (MarkdownViewer parseFrontmatter and comment stripping).

/-- JS String.prototype.trim on the whitespace the documents use. -/
def jsTrim (s : String) : String :=
  String.mk
    (((s.data.dropWhile Char.isWhitespace).reverse.dropWhile
      Char.isWhitespace).reverse)

/-- The global replace of comment spans, text.replace of the pattern
matching from a comment-start marker lazily to the next comment-end
marker; an unmatched comment-start is left in place (and nothing after it
can match, since any later end marker would have closed it).  Structural
recursion on fuel, which only needs to reach the input length. -/
def stripCommentsFuel : Nat → List Char → List Char
  | 0, s => s
  | _ + 1, [] => []
  | fuel + 1, c :: cs =>
    if "<!--".data.isPrefixOf (c :: cs) then
      match splitAtFirst "-->".data ((c :: cs).drop 4) with
      | some r => stripCommentsFuel fuel r.2
      | none => c :: cs
    else c :: stripCommentsFuel fuel cs

def stripComments (s : String) : String :=
  String.mk (stripCommentsFuel s.data.length s.data)

/-- parseFrontmatter (MarkdownViewer): the anchored match of an opening
delimiter line, a lazily captured block, and a closing delimiter.  The
metadata component is represented by the raw captured YAML block (group
1): the source's line-by-line YAML decoding is a pure function of that
block, so the processor-ordering claims are unaffected by leaving the
decoding step out.  On a match the body is the input with the matched span
removed and trimmed; on no match the metadata is absent and the body is
the input unchanged. -/
def parseFrontmatter (text : String) : Option String × String :=
  if jsStartsWith text "---\n" then
    match splitAtFirst "\n---".data (text.data.drop 4) with
    | some r => (some (String.mk r.1), jsTrim (String.mk r.2))
    | none => (none, text)
  else (none, text)

/-- The frontmatter/comment stage of the MarkdownViewer useMemo
(part_001:173-176): empty content short-circuits; otherwise the metadata
block is parsed out of the raw text first and the comment spans are then
removed from the remaining body only.  The wiki-reference rewrite that
follows in the source consumes this stage's output and does not affect the
order of these two steps. -/
def viewerPreprocess (content : String) : Option String × String :=
  if content = "" then (none, "")
  else
    let r := parseFrontmatter content
    (r.1, stripComments r.2)

/-- Modelled from the claim and spec section 4.5: comment stripping first,
across the whole raw document, then metadata extraction. -/
def stripFirstPreprocess (content : String) : Option String × String :=
  if content = "" then (none, "")
  else parseFrontmatter (stripComments content)

/-- Counterexample to claim C7: on a document whose metadata block is
preceded by a comment span, the code (frontmatter first) finds no metadata,
while the claimed order (strip comments first) extracts the block. -/
theorem C7_comment_stripping_order_counterexample :
    (viewerPreprocess "<!-- c -->---\ntitle: x\n---\nbody").1 = none ∧
    (stripFirstPreprocess "<!-- c -->---\ntitle: x\n---\nbody").1 =
      some "title: x" := by
  constructor
  · rfl
  · rfl

/-- Claim C7 amended: the processor extracts the metadata block from the
raw document first — so the metadata is a function of the unstripped text —
and only then removes comment spans, from the extracted body alone. -/
theorem C7_comment_stripping_after_frontmatter (content : String) :
    (viewerPreprocess content).1 = (parseFrontmatter content).1 ∧
    (viewerPreprocess content).2 =
      stripComments (parseFrontmatter content).2 := by
  unfold viewerPreprocess
  by_cases h : content = ""
  · subst h
    constructor <;> rfl
  · rw [if_neg h]
    constructor <;> rfl

-- Manifest serialization (vaultRegistry.ts serializeNode).

mutual
/-- serializeNode (vaultRegistry.ts:54-63): the rest-spread drops only the
handle field; everything else, including the content cache and the isOpen
flag, is kept, and children are serialized recursively.  saveVaultManifest
stores the JSON form of exactly this value. -/
def serializeNode : FileSystemNode → FileSystemNode
  | .mk n k p _ c cs o => .mk n k p none c (serializeChildren cs) o

def serializeChildren :
    Option (List FileSystemNode) → Option (List FileSystemNode)
  | none => none
  | some l => some (serializeList l)

def serializeList : List FileSystemNode → List FileSystemNode
  | [] => []
  | x :: xs => serializeNode x :: serializeList xs
end

mutual
/-- Modelled from the claim's words: a manifest form that strips both the
backend handle and the cachedContent override, recursively, keeping the
plain record of name, kind, path and children. -/
def manifestSpecNode : FileSystemNode → FileSystemNode
  | .mk n k p _ _ cs o => .mk n k p none none (manifestSpecChildren cs) o

def manifestSpecChildren :
    Option (List FileSystemNode) → Option (List FileSystemNode)
  | none => none
  | some l => some (manifestSpecList l)

def manifestSpecList : List FileSystemNode → List FileSystemNode
  | [] => []
  | x :: xs => manifestSpecNode x :: manifestSpecList xs
end

mutual
/-- No node of the tree carries a handle. -/
def noHandlesNode : FileSystemNode → Bool
  | .mk _ _ _ h _ cs _ => h.isNone && noHandlesChildren cs

def noHandlesChildren : Option (List FileSystemNode) → Bool
  | none => true
  | some l => noHandlesList l

def noHandlesList : List FileSystemNode → Bool
  | [] => true
  | x :: xs => noHandlesNode x && noHandlesList xs
end

mutual
/-- Recursive equality of every field except the handle. -/
def eqExceptHandleNode : FileSystemNode → FileSystemNode → Bool
  | .mk n1 k1 p1 _ c1 cs1 o1, .mk n2 k2 p2 _ c2 cs2 o2 =>
    decide (n1 = n2) && decide (k1 = k2) && decide (p1 = p2) &&
    decide (c1 = c2) && decide (o1 = o2) && eqExceptHandleChildren cs1 cs2

def eqExceptHandleChildren :
    Option (List FileSystemNode) → Option (List FileSystemNode) → Bool
  | none, none => true
  | some l1, some l2 => eqExceptHandleList l1 l2
  | _, _ => false

def eqExceptHandleList : List FileSystemNode → List FileSystemNode → Bool
  | [], [] => true
  | x :: xs, y :: ys => eqExceptHandleNode x y && eqExceptHandleList xs ys
  | _, _ => false
end

mutual
theorem serializeNode_spec : ∀ x : FileSystemNode,
    noHandlesNode (serializeNode x) = true ∧
    eqExceptHandleNode (serializeNode x) x = true
  | .mk n k p h c cs o => by
    have hc := serializeChildren_spec cs
    constructor
    · simp [serializeNode, noHandlesNode, hc.1]
    · simp [serializeNode, eqExceptHandleNode, hc.2]

theorem serializeChildren_spec : ∀ cs : Option (List FileSystemNode),
    noHandlesChildren (serializeChildren cs) = true ∧
    eqExceptHandleChildren (serializeChildren cs) cs = true
  | none => by
    simp [serializeChildren, noHandlesChildren, eqExceptHandleChildren]
  | some l => by
    have hl := serializeList_spec l
    simp [serializeChildren, noHandlesChildren, eqExceptHandleChildren,
      hl.1, hl.2]

theorem serializeList_spec : ∀ l : List FileSystemNode,
    noHandlesList (serializeList l) = true ∧
    eqExceptHandleList (serializeList l) l = true
  | [] => by
    simp [serializeList, noHandlesList, eqExceptHandleList]
  | x :: xs => by
    have hx := serializeNode_spec x
    have hxs := serializeList_spec xs
    simp [serializeList, noHandlesList, eqExceptHandleList,
      hx.1, hx.2, hxs.1, hxs.2]
end

/-- Counterexample to claim C8: the serialized form of a node with a cached
content override still carries that content — only the handle is dropped —
while the claimed manifest form would drop cachedContent, so the two forms
disagree at this node. -/
theorem C8_serializeNode_keeps_cachedContent :
    (serializeNode
      (.mk "a.md" FileType.FILE "a.md" (some 7) (some "hello") none false)).content =
      some "hello" ∧
    (manifestSpecNode
      (.mk "a.md" FileType.FILE "a.md" (some 7) (some "hello") none false)).content =
      none := by
  constructor
  · rfl
  · rfl

/-- Claim C8 amended: the serialized manifest form omits, recursively at
every depth, exactly the backend handle; name, kind, path, the children
structure, the isOpen flag and — contrary to the original claim — the
cachedContent override are all preserved. -/
theorem C8_serializeNode_omits_handle_only (x : FileSystemNode) :
    noHandlesNode (serializeNode x) = true ∧
    eqExceptHandleNode (serializeNode x) x = true :=
  serializeNode_spec x

-- ReferenceResolver (App.tsx findNodeByName).

mutual
/-- findNodeByName (App.tsx:211-244): iterate the sibling list, trying each
node in order and descending into directories in place. -/
def findNodeByName :
    List FileSystemNode → String → Bool → Option FileSystemNode
  | [], _, _ => none
  | node :: rest, targetName, isImage =>
    match findInNode node targetName isImage with
    | some found => some found
    | none => findNodeByName rest targetName isImage

/-- One iteration of the findNodeByName loop: for a FILE node the three
matching rules in order — (1) full normalized path, (2) filename when the
reference is an embed/image or the target has no separator, (3) the
node-side name or path with a trailing .md stripped — then the recursive
descent when the node is a directory with a children sequence.  The
source's local aliases (target, nodeName, nodePath, cleanNodeName,
cleanNodePath) are inlined. -/
def findInNode : FileSystemNode → String → Bool → Option FileSystemNode
  | .mk n k p h c cs o, targetName, isImage =>
    match
      (if k = FileType.FILE then
        if jsNormalize p = jsNormalize targetName then some (.mk n k p h c cs o)
        else if (isImage || !(containsSlash (jsNormalize targetName))) &&
            jsNormalize n = jsNormalize targetName then
          some (.mk n k p h c cs o)
        else if containsSlash (jsNormalize targetName) then
          (if stripMdEnd (jsNormalize p) = jsNormalize targetName then
            some (.mk n k p h c cs o)
          else none)
        else
          (if stripMdEnd (jsNormalize n) = jsNormalize targetName then
            some (.mk n k p h c cs o)
          else none)
      else none) with
    | some found => some found
    | none =>
      match k, cs with
      | FileType.DIRECTORY, some l => findNodeByName l targetName isImage
      | FileType.DIRECTORY, none => none
      | FileType.FILE, _ => none
end

mutual
/-- The depth-first preorder of the resolver: each node, then its directory
children recursively, then its later siblings. -/
def dfsNodes : List FileSystemNode → List FileSystemNode
  | [] => []
  | node :: rest => node :: (dfsChild node ++ dfsNodes rest)

def dfsChild : FileSystemNode → List FileSystemNode
  | .mk _ k _ _ _ cs _ =>
    match k, cs with
    | FileType.DIRECTORY, some l => dfsNodes l
    | FileType.DIRECTORY, none => []
    | FileType.FILE, _ => []
end

/-- Modelled from the claim's words: rule (a) exact normalized-path match;
rule (b) filename match when the reference is an embed or the target has no
separator; rule (c) extension-insensitive match with a trailing .md
stripped from BOTH sides, on full paths when the target has a separator and
on filenames otherwise. -/
def claimMatches (targetName : String) (isImage : Bool)
    (node : FileSystemNode) : Bool :=
  let target := jsNormalize targetName
  node.kind = FileType.FILE &&
    (jsNormalize node.path = target ||
     ((isImage || !(containsSlash target)) && jsNormalize node.name = target) ||
     (if containsSlash target then
        stripMdEnd (jsNormalize node.path) = stripMdEnd target
      else
        stripMdEnd (jsNormalize node.name) = stripMdEnd target))

/-- The claim's resolver: first FILE node of the depth-first traversal
satisfying any of the claimed rules. -/
def findNodeByNameClaim (nodes : List FileSystemNode) (targetName : String)
    (isImage : Bool) : Option FileSystemNode :=
  (dfsNodes nodes).find? (claimMatches targetName isImage)

/-- The amended matching rules: identical to the claim's except that rule
(c) strips the trailing .md from the node's side only and compares
against the target as-is. -/
def amendedMatches (targetName : String) (isImage : Bool)
    (node : FileSystemNode) : Bool :=
  let target := jsNormalize targetName
  node.kind = FileType.FILE &&
    (jsNormalize node.path = target ||
     ((isImage || !(containsSlash target)) && jsNormalize node.name = target) ||
     (if containsSlash target then stripMdEnd (jsNormalize node.path) = target
      else stripMdEnd (jsNormalize node.name) = target))

def findNodeByNameAmended (nodes : List FileSystemNode) (targetName : String)
    (isImage : Bool) : Option FileSystemNode :=
  (dfsNodes nodes).find? (amendedMatches targetName isImage)

theorem sizeOf_children_lt (node : FileSystemNode) (l : List FileSystemNode)
    (hl : node.children = some l) : sizeOf l < sizeOf node := by
  rcases node with ⟨n, k, p, h, c, cs, o⟩
  simp only [FileSystemNode.children] at hl
  subst hl
  simp
  omega

theorem findInNode_eq_amended_aux (node : FileSystemNode) (t : String) (e : Bool)
    (ih : ∀ l, node.children = some l →
      findNodeByName l t e = findNodeByNameAmended l t e) :
    findInNode node t e =
      (if amendedMatches t e node = true then some node
       else (dfsChild node).find? (amendedMatches t e)) := by
  rcases node with ⟨n, k, p, h, c, cs, o⟩
  cases k with
  | FILE =>
    simp only [findInNode]
    simp only [dfsChild]
    by_cases hA : jsNormalize p = jsNormalize t
    · simp [amendedMatches, FileSystemNode.kind, FileSystemNode.path, hA]
    · cases e with
      | true =>
        by_cases hN : jsNormalize n = jsNormalize t
        · simp [amendedMatches, FileSystemNode.kind, FileSystemNode.path,
            FileSystemNode.name, hA, hN]
        · cases hS : containsSlash (jsNormalize t) with
          | true =>
            by_cases hC : stripMdEnd (jsNormalize p) = jsNormalize t <;>
              simp [amendedMatches, FileSystemNode.kind, FileSystemNode.path,
                FileSystemNode.name, hA, hN, hS, hC]
          | false =>
            by_cases hC : stripMdEnd (jsNormalize n) = jsNormalize t <;>
              simp [amendedMatches, FileSystemNode.kind, FileSystemNode.path,
                FileSystemNode.name, hA, hN, hS, hC]
      | false =>
        cases hS : containsSlash (jsNormalize t) with
        | true =>
          by_cases hC : stripMdEnd (jsNormalize p) = jsNormalize t <;>
            simp [amendedMatches, FileSystemNode.kind, FileSystemNode.path,
              FileSystemNode.name, hA, hS, hC]
        | false =>
          by_cases hN : jsNormalize n = jsNormalize t
          · simp [amendedMatches, FileSystemNode.kind, FileSystemNode.path,
              FileSystemNode.name, hA, hN, hS]
          · by_cases hC : stripMdEnd (jsNormalize n) = jsNormalize t <;>
              simp [amendedMatches, FileSystemNode.kind, FileSystemNode.path,
                FileSystemNode.name, hA, hN, hS, hC]
  | DIRECTORY =>
    cases cs with
    | none =>
      simp [findInNode, amendedMatches, FileSystemNode.kind, dfsChild]
    | some l =>
      have hl := ih l rfl
      simp [findInNode, amendedMatches, FileSystemNode.kind,
        FileSystemNode.path, FileSystemNode.name, dfsChild,
        findNodeByNameAmended, hl]

/-- The resolver loop equals first-match-in-preorder under the amended
rules: claim C9's traversal-and-precedence reading, with rule (c) corrected
to strip the trailing .md from the node's side only. -/
theorem findNodeByName_eq_amended :
    ∀ (nodes : List FileSystemNode) (t : String) (e : Bool),
      findNodeByName nodes t e = findNodeByNameAmended nodes t e
  | [], t, e => by
    simp [findNodeByName, findNodeByNameAmended, dfsNodes]
  | node :: rest, t, e => by
    have h1 := findInNode_eq_amended_aux node t e
      (fun l _ => findNodeByName_eq_amended l t e)
    have h2 := findNodeByName_eq_amended rest t e
    rw [findNodeByName, h1, h2]
    unfold findNodeByNameAmended
    rw [dfsNodes, List.find?_cons]
    cases ham : amendedMatches t e node with
    | true => simp [ham]
    | false =>
      simp only [ham, if_neg Bool.false_ne_true, List.find?_append]
      cases (dfsChild node).find? (amendedMatches t e) with
      | none => simp [findNodeByNameAmended]
      | some f => simp
termination_by nodes => sizeOf nodes
decreasing_by
  · rename_i hl
    have := sizeOf_children_lt node l hl
    simp only [List.cons.sizeOf_spec]
    omega
  · simp only [List.cons.sizeOf_spec]
    omega

/-- Counterexample to claim C9's rule (c): for a FILE node named readme
(no extension) and target readme.md, stripping the trailing .md from both
sides — as the claim states — resolves the node, but the code strips only
the node side and completes the traversal without a hit. -/
theorem C9_resolver_strip_side_counterexample :
    findNodeByName
        [FileSystemNode.mk "readme" FileType.FILE "readme" none none none
          false] "readme.md" false = none ∧
    findNodeByNameClaim
        [FileSystemNode.mk "readme" FileType.FILE "readme" none none none
          false] "readme.md" false =
      some (FileSystemNode.mk "readme" FileType.FILE "readme" none none none
        false) := by
  constructor
  · rfl
  · rfl

/-- Claim C9 amended: the resolver returns the first FILE node of the
depth-first traversal matching rule (a) exact normalized path, rule (b)
filename when the reference is an embed or the target has no separator, or
rule (c) with the trailing .md stripped from the node's name/path side
only, the target being compared as-is; it returns no match when the
traversal completes without a hit. -/
theorem C9_resolver_first_match_node_side_strip
    (nodes : List FileSystemNode) (targetName : String) (isImage : Bool) :
    findNodeByName nodes targetName isImage =
      findNodeByNameAmended nodes targetName isImage :=
  findNodeByName_eq_amended nodes targetName isImage

-- Native directory scan (fileSystem.ts scanDirectory).

/-- A filesystem entry as surfaced by the native directory handle
iteration; the handle ids are the opaque tokens of the scanned entries. -/
inductive DirEntry where
  | file (name : String) (handleId : Nat)
  | dir (name : String) (handleId : Nat) (entries : List DirEntry)

def DirEntry.name : DirEntry → String
  | .file n _ => n
  | .dir n _ _ => n

/-- IGNORED_NAMES (fileSystem.ts:230). -/
def IGNORED_NAMES : List String :=
  [".obsidian", ".git", ".trash", ".DS_Store", "node_modules"]

/-- The file filter of scanDirectory: name.endsWith of .md
(case-sensitive) or the case-insensitive image-extension match of
png/jpg/jpeg/svg/gif. -/
def isMarkdownOrImage (name : String) : Bool :=
  jsEndsWith name ".md" ||
    [".png", ".jpg", ".jpeg", ".svg", ".gif"].any
      (fun ext => jsEndsWith (toLowerStr name) ext)

/-- The entry loop of scanDirectory (fileSystem.ts:275-312): skip ignored
and dot-led names, recurse into directories (the recursive scanDirectory
call is inlined here as the directory-node construction it performs), and
keep only markdown/image files. -/
def scanEntries : List DirEntry → String → List FileSystemNode
  | [], _ => []
  | e :: rest, currentPath =>
    if IGNORED_NAMES.contains e.name || jsStartsWith e.name "." then
      scanEntries rest currentPath
    else
      match e with
      | .dir n hid es =>
        .mk n FileType.DIRECTORY
            (if currentPath = "" then n else currentPath ++ "/" ++ n)
            (some hid) none
            (some (sortChildren (scanEntries es
              (if currentPath = "" then n else currentPath ++ "/" ++ n))))
            false ::
          scanEntries rest currentPath
      | .file n hid =>
        if isMarkdownOrImage n then
          .mk n FileType.FILE
              (if currentPath = "" then n else currentPath ++ "/" ++ n)
              (some hid) none none false ::
            scanEntries rest currentPath
        else scanEntries rest currentPath

/-- scanDirectory on the handle the scan starts from: the directory node
over the filtered, sorted scan of its entries.  The node built here for
the root and the nodes built inside scanEntries for sub-directories are
the same construction. -/
def scanDirectory (dirName : String) (dirHandle : Nat)
    (entries : List DirEntry) (currentPath : String) : FileSystemNode :=
  .mk dirName FileType.DIRECTORY currentPath (some dirHandle) none
    (some (sortChildren (scanEntries entries currentPath))) false

mutual
/-- The two C10 invariants at a node and below it: the name is neither in
the ignored set nor dot-led, a FILE name passes the markdown-or-image
filter, and the same holds for all children recursively. -/
def goodScanNode : FileSystemNode → Bool
  | .mk n k _ _ _ cs _ =>
    !(IGNORED_NAMES.contains n) && !(jsStartsWith n ".") &&
    (match k with
     | FileType.FILE => isMarkdownOrImage n
     | FileType.DIRECTORY => true) &&
    goodScanChildren cs

def goodScanChildren : Option (List FileSystemNode) → Bool
  | none => true
  | some l => goodScanList l

def goodScanList : List FileSystemNode → Bool
  | [] => true
  | x :: xs => goodScanNode x && goodScanList xs
end

theorem goodScanList_eq_all (l : List FileSystemNode) :
    goodScanList l = l.all goodScanNode := by
  induction l with
  | nil => rfl
  | cons x xs ih => simp [goodScanList, List.all_cons, ih]

theorem goodScanList_sortChildren (l : List FileSystemNode)
    (h : goodScanList l = true) : goodScanList (sortChildren l) = true := by
  rw [goodScanList_eq_all] at h ⊢
  rw [List.all_eq_true] at h ⊢
  intro x hx
  exact h x ((List.perm_insertionSort nodeLeR l).subset hx)

theorem scanEntries_good :
    ∀ (entries : List DirEntry) (currentPath : String),
      goodScanList (scanEntries entries currentPath) = true
  | [], _ => by simp [scanEntries, goodScanList]
  | .dir n hid es :: rest, currentPath => by
    have hrest := scanEntries_good rest currentPath
    have hes := scanEntries_good es
      (if currentPath = "" then n else currentPath ++ "/" ++ n)
    simp only [scanEntries, DirEntry.name]
    by_cases hig1 : n ∈ IGNORED_NAMES
    · simp [hig1, hrest]
    · by_cases hig2 : jsStartsWith n "." = true
      · simp [hig1, hig2, hrest]
      · simp [hig1, hig2, hrest, goodScanList, goodScanNode, goodScanChildren,
          goodScanList_sortChildren _ hes]
  | .file n hid :: rest, currentPath => by
    have hrest := scanEntries_good rest currentPath
    simp only [scanEntries, DirEntry.name]
    by_cases hig1 : n ∈ IGNORED_NAMES
    · simp [hig1, hrest]
    · by_cases hig2 : jsStartsWith n "." = true
      · simp [hig1, hig2, hrest]
      · cases hmd : isMarkdownOrImage n with
        | true =>
          simp [hig1, hig2, hmd, hrest, goodScanList, goodScanNode,
            goodScanChildren]
        | false => simp [hig1, hig2, hmd, hrest]

/-- Counterexample to claim C10 as universally stated over the scanned
tree: scanning a selected root directory named .git yields a root node
whose name both starts with a dot and belongs to the ignored set — the
root's own name is never filtered, only entry names are. -/
theorem C10_scan_root_name_unfiltered :
    (scanDirectory ".git" 0 [] "").name = ".git" ∧
    jsStartsWith (scanDirectory ".git" 0 [] "").name "." = true ∧
    IGNORED_NAMES.contains (scanDirectory ".git" 0 [] "").name = true := by
  refine ⟨rfl, ?_, ?_⟩
  · decide
  · decide

/-- Claim C10 amended: below the root, every node of a Native scan has a
name outside the ignored set and not starting with a dot, and every FILE
node's name ends in .md (exact case) or one of the image extensions
png/jpg/jpeg/svg/gif case-insensitively; other entries are excluded. -/
theorem C10_scan_children_filtered (dirName : String) (dirHandle : Nat)
    (entries : List DirEntry) (currentPath : String) :
    goodScanChildren
      (scanDirectory dirName dirHandle entries currentPath).children = true := by
  have h : goodScanList
      (sortChildren (scanEntries entries currentPath)) = true :=
    goodScanList_sortChildren _ (scanEntries_good entries currentPath)
  simp [scanDirectory, FileSystemNode.children, goodScanChildren, h]
